import Mathlib

/-!
Verification of the plock progressive-lock word operations (src/plock.h).

Shallow embedding: a lock word is a natural number below 2^32 (32-bit lock)
or 2^64 (64-bit lock).  Every atomic read-modify-write of the C code is
modelled as a pure function on the word value, with C unsigned wraparound
made explicit as arithmetic modulo 2^32 / 2^64.  Loops that re-read the word
under concurrent interference are modelled over an explicit list of observed
values: the successive results of the C code's reads and of the prev values
returned by its fetch-adds.  Each modelled operation also reports the list of
signed deltas it applied to the word, so that net word effects can be stated.
-/

namespace Plock

/-- The 64-bit reader-field unit (bit 2), from src/plock.h line 32. -/
def PLOCK64_RL_1 : Nat := 0x0000000000000004

/-- The 64-bit reader-field mask without its lowest bit, line 33. -/
def PLOCK64_RL_2PL : Nat := 0x00000000FFFFFFF8

/-- The 64-bit reader-field mask (bits 2..31), line 34. -/
def PLOCK64_RL_ANY : Nat := 0x00000000FFFFFFFC

/-- The 64-bit seeker-field unit (bit 32), line 35. -/
def PLOCK64_SL_1 : Nat := 0x0000000100000000

/-- The 64-bit seeker-field mask (bits 32..33), line 36. -/
def PLOCK64_SL_ANY : Nat := 0x0000000300000000

/-- The 64-bit writer-field unit (bit 34), line 37. -/
def PLOCK64_WL_1 : Nat := 0x0000000400000000

/-- The 64-bit writer-field mask without its lowest bit, line 38. -/
def PLOCK64_WL_2PL : Nat := 0xFFFFFFF800000000

/-- The 64-bit writer-field mask (bits 34..63), line 39. -/
def PLOCK64_WL_ANY : Nat := 0xFFFFFFFC00000000

/-- The 32-bit reader-field unit (bit 2), line 42. -/
def PLOCK32_RL_1 : Nat := 0x00000004

/-- The 32-bit reader-field mask without its lowest bit, line 43. -/
def PLOCK32_RL_2PL : Nat := 0x0000FFF8

/-- The 32-bit reader-field mask (bits 2..15), line 44. -/
def PLOCK32_RL_ANY : Nat := 0x0000FFFC

/-- The 32-bit seeker-field unit (bit 16), line 45. -/
def PLOCK32_SL_1 : Nat := 0x00010000

/-- The 32-bit seeker-field mask (bits 16..17), line 46. -/
def PLOCK32_SL_ANY : Nat := 0x00030000

/-- The 32-bit writer-field unit (bit 18), line 47. -/
def PLOCK32_WL_1 : Nat := 0x00040000

/-- The 32-bit writer-field mask without its lowest bit, line 48. -/
def PLOCK32_WL_2PL : Nat := 0xFFF80000

/-- The 32-bit writer-field mask (bits 18..31), line 49. -/
def PLOCK32_WL_ANY : Nat := 0xFFFC0000

/-- Modulus of a 32-bit C unsigned int. -/
def M32 : Nat := 0x100000000

/-- Modulus of a 64-bit C unsigned long. -/
def M64 : Nat := 0x10000000000000000

/-- C unsigned 32-bit addition with wraparound (models pl_xadd / pl_add on
the word value). -/
def w32add (v k : Nat) : Nat := (v + k) % M32

/-- C unsigned 32-bit subtraction with wraparound (models pl_sub on the word
value); the subtrahend is reduced mod 2^32 first. -/
def w32sub (v k : Nat) : Nat := (v + (M32 - k % M32)) % M32

/-- C unsigned 64-bit addition with wraparound. -/
def w64add (v k : Nat) : Nat := (v + k) % M64

/-- C unsigned 64-bit subtraction with wraparound. -/
def w64sub (v k : Nat) : Nat := (v + (M64 - k % M64)) % M64

/-- The quantity added by pl_try_w / pl_take_w and subtracted by pl_drop_w
(32-bit): PLOCK32_WL_1 | PLOCK32_SL_1 | PLOCK32_RL_1. -/
def plock32_wsr : Nat := PLOCK32_WL_1 ||| PLOCK32_SL_1 ||| PLOCK32_RL_1

/-- Word effect of pl_drop_r (32-bit): pl_sub(lock, PLOCK32_RL_1). -/
def pl_drop_r32 (v : Nat) : Nat := w32sub v PLOCK32_RL_1

/-- Word effect of pl_take_s (32-bit), single-threaded: the first xadd of
S1|R1 returns prev value v; the operation admits iff v has no W or S bit,
otherwise it backs the addition out and waits (modelled as none, since with
no other thread the conflicting bits never clear). -/
def pl_take_s32 (v : Nat) : Option Nat :=
  if v &&& (PLOCK32_WL_ANY ||| PLOCK32_SL_ANY) = 0 then
    some (w32add v (PLOCK32_SL_1 ||| PLOCK32_RL_1))
  else none

/-- Word effect of pl_take_s (64-bit), single-threaded. -/
def pl_take_s64 (v : Nat) : Option Nat :=
  if v &&& (PLOCK64_WL_ANY ||| PLOCK64_SL_ANY) = 0 then
    some (w64add v (PLOCK64_SL_1 ||| PLOCK64_RL_1))
  else none

/-- Word effect of pl_stow (32-bit): xadd(lock, PLOCK32_WL_1); the
subsequent wait loop only reads the word and writes nothing. -/
def pl_stow32 (v : Nat) : Nat := w32add v PLOCK32_WL_1

/-- Word effect of pl_stow (64-bit). -/
def pl_stow64 (v : Nat) : Nat := w64add v PLOCK64_WL_1

/-- Exit condition of pl_stow's wait loop on an observed word value
(32-bit): all reader bits except the caller's own have left. -/
def pl_stow32_done (v : Nat) : Bool := v &&& PLOCK32_RL_ANY == PLOCK32_RL_1

/-- Word effect of pl_drop_w (32-bit):
pl_sub(lock, PLOCK32_WL_1 | PLOCK32_SL_1 | PLOCK32_RL_1). -/
def pl_drop_w32 (v : Nat) : Nat :=
  w32sub v (PLOCK32_WL_1 ||| PLOCK32_SL_1 ||| PLOCK32_RL_1)

/-- Word effect of pl_drop_w (64-bit). -/
def pl_drop_w64 (v : Nat) : Nat :=
  w64sub v (PLOCK64_WL_1 ||| PLOCK64_SL_1 ||| PLOCK64_RL_1)

/-- Word effect of pl_drop_s (32-bit): pl_sub(lock, SL_1 + RL_1). -/
def pl_drop_s32 (v : Nat) : Nat := w32sub v (PLOCK32_SL_1 + PLOCK32_RL_1)

/-- Word effect of pl_stor (32-bit): pl_sub(lock, PLOCK32_SL_1). -/
def pl_stor32 (v : Nat) : Nat := w32sub v PLOCK32_SL_1

/-- Word effect of pl_stor (64-bit). -/
def pl_stor64 (v : Nat) : Nat := w64sub v PLOCK64_SL_1

/-- Word effect of pl_wtos (32-bit): pl_sub(lock, PLOCK32_WL_1). -/
def pl_wtos32 (v : Nat) : Nat := w32sub v PLOCK32_WL_1

/-- Word effect of pl_wtos (64-bit). -/
def pl_wtos64 (v : Nat) : Nat := w64sub v PLOCK64_WL_1

/-- Word effect of pl_wtor (32-bit):
pl_sub(lock, PLOCK32_WL_1 | PLOCK32_SL_1). -/
def pl_wtor32 (v : Nat) : Nat := w32sub v (PLOCK32_WL_1 ||| PLOCK32_SL_1)

/-- Word effect of pl_wtor (64-bit). -/
def pl_wtor64 (v : Nat) : Nat := w64sub v (PLOCK64_WL_1 ||| PLOCK64_SL_1)

/-- Return value of pl_last_writer (32-bit):
!(pl_deref_int(lock) & PLOCK32_WL_2PL). -/
def pl_last_writer32 (v : Nat) : Bool := v &&& PLOCK32_WL_2PL == 0

/-- Return value of pl_last_writer (64-bit). -/
def pl_last_writer64 (v : Nat) : Bool := v &&& PLOCK64_WL_2PL == 0

/-- One update of the relaxation counter in pl_wait_unlock_long and
pl_wait_unlock_int: m = ((m + (m >> 1)) | 2) & 0x7fff. -/
def pl_wait_unlock_next (m : Nat) : Nat := ((m + (m >>> 1)) ||| 2) &&& 0x7fff

/-- Value of the relaxation counter m at the start of outer iteration n of
pl_wait_unlock_long / pl_wait_unlock_int; m starts at 0. -/
def pl_wait_unlock_m : Nat → Nat
  | 0 => 0
  | n + 1 => pl_wait_unlock_next (pl_wait_unlock_m n)

/-- pl_try_rtos (32-bit), modelled over the two word values it can observe:
v0 is the initial read of the lock, v1 is the prev value returned by the
xadd of SL_1 when that xadd is reached.  Returns the C return value together
with the list of signed deltas applied to the word. -/
def pl_try_rtos32 (v0 v1 : Nat) : Bool × List Int :=
  if v0 &&& (PLOCK32_WL_ANY ||| PLOCK32_SL_ANY) = 0 then
    if v1 &&& (PLOCK32_WL_ANY ||| PLOCK32_SL_ANY) = 0 then
      (true, [(PLOCK32_SL_1 : Int)])
    else
      (false, [(PLOCK32_SL_1 : Int), -(PLOCK32_SL_1 : Int)])
  else
    (v0 == 0, [])

/-- Loop of pl_take_a (32-bit) over successive observed values.  r is the
value currently held in the local variable of the C code (the prev value of
the initial xadd, then of re-issued xadds or plain reads); obs supplies, in
order, the value produced by each later read.  While the observed value has
reader bits, an observed S bit makes the code subtract WL_1, wait for S to
clear, and re-issue the xadd; otherwise it just re-reads.  Returns the
admitted value together with the signed deltas applied by the loop body, or
none if the observations run out while still looping. -/
def pl_take_a_loop32 : Nat → List Nat → Option (Nat × List Int)
  | r, [] =>
    if r &&& PLOCK32_RL_ANY = 0 then some (r, []) else none
  | r, o :: rest =>
    if r &&& PLOCK32_RL_ANY = 0 then
      some (r, [])
    else if r &&& PLOCK32_SL_ANY ≠ 0 then
      match pl_take_a_loop32 o rest with
      | none => none
      | some (w, ops) =>
        some (w, (-(PLOCK32_WL_1 : Int)) :: (PLOCK32_WL_1 : Int) :: ops)
    else
      pl_take_a_loop32 o rest

/-- pl_take_a (32-bit): the initial xadd(WL_1) whose prev value is v0,
followed by the loop; the deltas include the initial addition. -/
def pl_take_a32 (v0 : Nat) (obs : List Nat) : Option (Nat × List Int) :=
  match pl_take_a_loop32 v0 obs with
  | none => none
  | some (w, ops) => some (w, (PLOCK32_WL_1 : Int) :: ops)

/-- Reader-drain loop shared by pl_try_w and pl_take_w (32-bit): while
__pl_r is non-zero, re-read the word and subtract WL_1|SL_1|RL_1 from it.
r is the current value of __pl_r, w the word value r was derived from
(initially the post-xadd value, then each plain read), obs the later reads.
Returns the word value observed at loop exit, or none if the observations
run out first.  The loop writes nothing to the word. -/
def pl_w_drain32 : Nat → Nat → List Nat → Option Nat
  | r, w, [] => if r = 0 then some w else none
  | r, w, o :: rest =>
    if r = 0 then some w
    else pl_w_drain32 (w32sub o plock32_wsr) o rest

/-- pl_try_w (32-bit): v0 is the initial read of the lock, v1 the prev value
returned by the xadd of WL_1|SL_1|RL_1 when reached, obs the reads of the
reader-drain loop.  Returns the C return value, the signed deltas applied,
and the final word value known to the caller; none if the drain loop is
still running when obs runs out. -/
def pl_try_w32 (v0 v1 : Nat) (obs : List Nat) : Option (Bool × List Int × Nat) :=
  if v0 &&& (PLOCK32_WL_ANY ||| PLOCK32_SL_ANY) ≠ 0 then
    some (v0 == 0, [], v0)
  else if v1 &&& (PLOCK32_WL_ANY ||| PLOCK32_SL_ANY) ≠ 0 then
    some (v1 &&& (PLOCK32_WL_ANY ||| PLOCK32_SL_ANY) == 0,
      [(plock32_wsr : Int), -(plock32_wsr : Int)], v1)
  else
    match pl_w_drain32 v1 (w32add v1 plock32_wsr) obs with
    | none => none
    | some w => some (true, [(plock32_wsr : Int)], w)

/-- Acquisition loop of pl_take_w (32-bit): each iteration issues
xadd(WL_1|SL_1|RL_1); the elements of obs are, in order, the prev values
those xadds return.  On a conflicting prev value the code subtracts the
same amount back and waits for the conflict mask to clear before retrying.
Returns the admitted prev value, the deltas applied so far, and the unused
observations (which then feed the reader-drain loop). -/
def pl_take_w_loop32 : List Nat → Option (Nat × List Int × List Nat)
  | [] => none
  | v :: rest =>
    if v &&& (PLOCK32_WL_ANY ||| PLOCK32_SL_ANY) = 0 then
      some (v, [(plock32_wsr : Int)], rest)
    else
      match pl_take_w_loop32 rest with
      | none => none
      | some (r, ops, rem) =>
        some (r, (plock32_wsr : Int) :: (-(plock32_wsr : Int)) :: ops, rem)

/-- pl_take_w (32-bit): the acquisition loop followed by the reader-drain
loop.  Returns the word value observed at completion together with the
signed deltas applied. -/
def pl_take_w32 (obs : List Nat) : Option (Nat × List Int) :=
  match pl_take_w_loop32 obs with
  | none => none
  | some (r, ops, rem) =>
    match pl_w_drain32 r (w32add r plock32_wsr) rem with
    | none => none
    | some w => some (w, ops)

/-- Every atomic mutation of the 32-bit lock word performed anywhere in
src/plock.h, as a function of the word value: the xadd / add / sub amounts
of try_r, take_r, drop_r, try_s, take_s, drop_s, stor, stow, wtos, wtor,
try_w, take_w, drop_w, try_rtos, try_rtow, try_a, take_a, drop_a, ator,
try_rtoa, rtoj, rtoc, drop_c, ctoa, atoj, try_j, take_j, drop_j (negative C
constants written as their unsigned complements), plus the pl_or of SL_1 in
jtoc / rtoc and the pl_and of ~SL_1 in drop_c / ctoa. -/
def pl_mutations32 : List (Nat → Nat) := [
  fun v => w32add v PLOCK32_RL_1,
  fun v => w32sub v PLOCK32_RL_1,
  fun v => w32add v (PLOCK32_SL_1 ||| PLOCK32_RL_1),
  fun v => w32sub v (PLOCK32_SL_1 ||| PLOCK32_RL_1),
  fun v => w32sub v (PLOCK32_SL_1 + PLOCK32_RL_1),
  fun v => w32sub v PLOCK32_SL_1,
  fun v => w32add v PLOCK32_WL_1,
  fun v => w32sub v PLOCK32_WL_1,
  fun v => w32sub v (PLOCK32_WL_1 ||| PLOCK32_SL_1),
  fun v => w32add v (PLOCK32_WL_1 ||| PLOCK32_SL_1),
  fun v => w32add v (PLOCK32_WL_1 ||| PLOCK32_SL_1 ||| PLOCK32_RL_1),
  fun v => w32sub v (PLOCK32_WL_1 ||| PLOCK32_SL_1 ||| PLOCK32_RL_1),
  fun v => w32add v PLOCK32_SL_1,
  fun v => w32add v (PLOCK32_WL_1 - PLOCK32_RL_1),
  fun v => w32sub v (PLOCK32_WL_1 - PLOCK32_RL_1),
  fun v => w32add v (PLOCK32_WL_1 ||| PLOCK32_RL_1),
  fun v => w32sub v (PLOCK32_WL_1 ||| PLOCK32_RL_1),
  fun v => w32sub v (PLOCK32_RL_1 + PLOCK32_WL_1),
  fun v => v ||| PLOCK32_SL_1,
  fun v => v &&& 0xFFFEFFFF
]

/-- Every atomic mutation of the 64-bit lock word performed anywhere in
src/plock.h, mirroring pl_mutations32 for the 64-bit variants. -/
def pl_mutations64 : List (Nat → Nat) := [
  fun v => w64add v PLOCK64_RL_1,
  fun v => w64sub v PLOCK64_RL_1,
  fun v => w64add v (PLOCK64_SL_1 ||| PLOCK64_RL_1),
  fun v => w64sub v (PLOCK64_SL_1 ||| PLOCK64_RL_1),
  fun v => w64sub v (PLOCK64_SL_1 + PLOCK64_RL_1),
  fun v => w64sub v PLOCK64_SL_1,
  fun v => w64add v PLOCK64_WL_1,
  fun v => w64sub v PLOCK64_WL_1,
  fun v => w64sub v (PLOCK64_WL_1 ||| PLOCK64_SL_1),
  fun v => w64add v (PLOCK64_WL_1 ||| PLOCK64_SL_1),
  fun v => w64add v (PLOCK64_WL_1 ||| PLOCK64_SL_1 ||| PLOCK64_RL_1),
  fun v => w64sub v (PLOCK64_WL_1 ||| PLOCK64_SL_1 ||| PLOCK64_RL_1),
  fun v => w64add v PLOCK64_SL_1,
  fun v => w64add v (PLOCK64_WL_1 - PLOCK64_RL_1),
  fun v => w64sub v (PLOCK64_WL_1 - PLOCK64_RL_1),
  fun v => w64add v (PLOCK64_WL_1 ||| PLOCK64_RL_1),
  fun v => w64sub v (PLOCK64_WL_1 ||| PLOCK64_RL_1),
  fun v => w64sub v (PLOCK64_RL_1 + PLOCK64_WL_1),
  fun v => v ||| PLOCK64_SL_1,
  fun v => v &&& 0xFFFFFFFEFFFFFFFF
]

theorem or_mod_two_pow (x y n : Nat) :
    (x ||| y) % 2 ^ n = x % 2 ^ n ||| y % 2 ^ n := by
  apply Nat.eq_of_testBit_eq
  intro i
  simp only [Nat.testBit_mod_two_pow, Nat.testBit_or]
  by_cases h : i < n <;> simp [h]

theorem and_mod_two_pow (x y n : Nat) :
    (x &&& y) % 2 ^ n = x % 2 ^ n &&& y % 2 ^ n := by
  apply Nat.eq_of_testBit_eq
  intro i
  simp only [Nat.testBit_mod_two_pow, Nat.testBit_and]
  by_cases h : i < n <;> simp [h, Bool.and_assoc, Bool.and_comm, Bool.and_left_comm]

theorem and_high_mask_eq_zero_iff (k n v : Nat) (hv : v < 2 ^ (n + k)) :
    v &&& (2 ^ k - 1) <<< n = 0 ↔ v < 2 ^ n := by
  constructor
  · intro h
    apply Nat.lt_pow_two_of_testBit
    intro i hi
    by_cases hik : i < n + k
    · have hb := congrArg (fun z => Nat.testBit z i) h
      simp only [Nat.testBit_and, Nat.testBit_shiftLeft, Nat.testBit_two_pow_sub_one,
        Nat.zero_testBit] at hb
      cases htx : Nat.testBit v i
      · rfl
      · rw [htx] at hb
        simp at hb
        omega
    · exact Nat.testBit_lt_two_pow
        (lt_of_lt_of_le hv (Nat.pow_le_pow_right (by omega) (by omega)))
  · intro h
    apply Nat.eq_of_testBit_eq
    intro i
    simp only [Nat.testBit_and, Nat.testBit_shiftLeft, Nat.testBit_two_pow_sub_one,
      Nat.zero_testBit]
    by_cases hin : n ≤ i
    · have hx : Nat.testBit v i = false :=
        Nat.testBit_lt_two_pow (lt_of_lt_of_le h (Nat.pow_le_pow_right (by omega) hin))
      simp [hx]
    · simp [hin]

/-- C8: the bit-field constants match the specified layout: each unit
increment equals 1 shifted by the low bit of its field, and each field mask
covers exactly the bits of its field (32-bit: R bits 2..15, S bits 16..17,
W bits 18..31; 64-bit: R bits 2..31, S bits 32..33, W bits 34..63). -/
theorem field_layout :
    PLOCK32_RL_1 = 1 <<< 2 ∧ PLOCK32_RL_ANY = (2 ^ 14 - 1) <<< 2 ∧
    PLOCK32_SL_1 = 1 <<< 16 ∧ PLOCK32_SL_ANY = (2 ^ 2 - 1) <<< 16 ∧
    PLOCK32_WL_1 = 1 <<< 18 ∧ PLOCK32_WL_ANY = (2 ^ 14 - 1) <<< 18 ∧
    PLOCK64_RL_1 = 1 <<< 2 ∧ PLOCK64_RL_ANY = (2 ^ 30 - 1) <<< 2 ∧
    PLOCK64_SL_1 = 1 <<< 32 ∧ PLOCK64_SL_ANY = (2 ^ 2 - 1) <<< 32 ∧
    PLOCK64_WL_1 = 1 <<< 34 ∧ PLOCK64_WL_ANY = (2 ^ 30 - 1) <<< 34 := by
  decide

/-- C5 counterexample: at outer iteration 22 of the backoff loop the
relaxation counter holds 18771, which exceeds 16384; the claimed bound of
16384 on the counter is false. -/
theorem wait_unlock_m_exceeds_16384 :
    pl_wait_unlock_m 22 = 18771 ∧ 16384 < pl_wait_unlock_m 22 := by
  decide

/-- C5 (amended): the relaxation counter follows exactly the recurrence
m = ((m + m/2) | 2) & 0x7fff starting from 0, and its value never exceeds
0x7fff = 32767; 16384 is not a bound on the counter but the threshold at
which an iteration yields the scheduler once (spinning 8192 fewer times). -/
theorem wait_unlock_m_recurrence_and_bound (n : Nat) :
    pl_wait_unlock_m (n + 1)
      = ((pl_wait_unlock_m n + pl_wait_unlock_m n / 2) ||| 2) &&& 0x7fff ∧
    pl_wait_unlock_m n ≤ 0x7fff := by
  constructor
  · show pl_wait_unlock_next (pl_wait_unlock_m n) = _
    unfold pl_wait_unlock_next
    rw [Nat.shiftRight_eq_div_pow, pow_one]
  · cases n with
    | zero => decide
    | succ k =>
      show pl_wait_unlock_next (pl_wait_unlock_m k) ≤ 0x7fff
      exact Nat.and_le_right

/-- C10: pl_wtor has, for every word value, exactly the same net effect on
the word as pl_wtos followed by pl_stor: both compositions subtract
WL_1 + SL_1 (for either width). -/
theorem wtor_eq_wtos_then_stor (v : Nat) :
    (pl_wtor32 v = pl_stor32 (pl_wtos32 v) ∧
      pl_wtor32 v = w32sub v (PLOCK32_WL_1 + PLOCK32_SL_1)) ∧
    (pl_wtor64 v = pl_stor64 (pl_wtos64 v) ∧
      pl_wtor64 v = w64sub v (PLOCK64_WL_1 + PLOCK64_SL_1)) := by
  refine ⟨⟨?_, ?_⟩, ?_, ?_⟩ <;>
    simp [pl_wtor32, pl_stor32, pl_wtos32, pl_wtor64, pl_stor64, pl_wtos64,
      w32sub, w64sub, M32, M64, PLOCK32_WL_1, PLOCK32_SL_1, PLOCK64_WL_1,
      PLOCK64_SL_1] <;>
    omega

/-- C3: from any initial 32-bit or 64-bit word with no W or S bit set,
performing take_s, then stow, then drop_w leaves the lock word equal to its
initial value: the additions SL_1+RL_1 and WL_1 are exactly cancelled by
drop_w's subtraction of WL_1|SL_1|RL_1. -/
theorem take_s_stow_drop_w_roundtrip (v : Nat) :
    (v < M32 → v &&& (PLOCK32_WL_ANY ||| PLOCK32_SL_ANY) = 0 →
      (pl_take_s32 v).map (fun w => pl_drop_w32 (pl_stow32 w)) = some v) ∧
    (v < M64 → v &&& (PLOCK64_WL_ANY ||| PLOCK64_SL_ANY) = 0 →
      (pl_take_s64 v).map (fun w => pl_drop_w64 (pl_stow64 w)) = some v) := by
  constructor
  · intro hv hc
    rw [M32] at hv
    simp [pl_take_s32, hc, pl_stow32, pl_drop_w32, w32add, w32sub, M32,
      PLOCK32_WL_1, PLOCK32_SL_1, PLOCK32_RL_1]
    omega
  · intro hv hc
    rw [M64] at hv
    simp [pl_take_s64, hc, pl_stow64, pl_drop_w64, w64add, w64sub, M64,
      PLOCK64_WL_1, PLOCK64_SL_1, PLOCK64_RL_1]
    omega

/-- Witness for take_s_stow_drop_w_roundtrip at the concrete word 3 (only
the reserved tag bits set, no W or S bit). -/
theorem take_s_stow_drop_w_roundtrip_witness :
    (pl_take_s32 3).map (fun w => pl_drop_w32 (pl_stow32 w)) = some 3 ∧
    (pl_take_s64 3).map (fun w => pl_drop_w64 (pl_stow64 w)) = some 3 :=
  ⟨(take_s_stow_drop_w_roundtrip 3).1 (by decide) (by decide),
   (take_s_stow_drop_w_roundtrip 3).2 (by decide) (by decide)⟩

/-- C6 counterexample: on the zero word (no writer present at all)
pl_last_writer returns true even though the W field does not count one
single writer, for either width. -/
theorem last_writer_true_at_zero :
    pl_last_writer32 0 = true ∧ 0 / PLOCK32_WL_1 ≠ 1 ∧
    pl_last_writer64 0 = true ∧ 0 / PLOCK64_WL_1 ≠ 1 := by
  decide

/-- C6 (amended): pl_last_writer returns true exactly when the W field of
the word counts at most one writer; under the caller's documented
precondition of holding a writer bit itself (W count at least one, as
before drop_j / drop_c / drop_a) this is exactly when the caller's writer
is the only one. -/
theorem last_writer_iff (v : Nat) :
    (v < M32 → (pl_last_writer32 v = true ↔ v / PLOCK32_WL_1 ≤ 1)) ∧
    (v < M64 → (pl_last_writer64 v = true ↔ v / PLOCK64_WL_1 ≤ 1)) := by
  constructor
  · intro hv
    have hm : PLOCK32_WL_2PL = (2 ^ 13 - 1) <<< 19 := by decide
    have h32 : v < 2 ^ (19 + 13) := by
      rw [M32] at hv
      norm_num
      exact hv
    have h := and_high_mask_eq_zero_iff 13 19 v h32
    simp only [pl_last_writer32, beq_iff_eq, hm, h, PLOCK32_WL_1]
    norm_num
    omega
  · intro hv
    have hm : PLOCK64_WL_2PL = (2 ^ 29 - 1) <<< 35 := by decide
    have h64 : v < 2 ^ (35 + 29) := by
      rw [M64] at hv
      norm_num
      exact hv
    have h := and_high_mask_eq_zero_iff 29 35 v h64
    simp only [pl_last_writer64, beq_iff_eq, hm, h, PLOCK64_WL_1]
    norm_num
    omega

/-- Witness for last_writer_iff at the word holding exactly one writer. -/
theorem last_writer_iff_witness :
    (pl_last_writer32 PLOCK32_WL_1 = true ↔ PLOCK32_WL_1 / PLOCK32_WL_1 ≤ 1) ∧
    (pl_last_writer64 PLOCK64_WL_1 = true ↔ PLOCK64_WL_1 / PLOCK64_WL_1 ≤ 1) :=
  ⟨(last_writer_iff PLOCK32_WL_1).1 (by decide),
   (last_writer_iff PLOCK64_WL_1).2 (by decide)⟩

/-- C7: every atomic mutation the lock code performs on a lock word leaves
the two reserved low bits (bits 0 and 1) unchanged: every addition or
subtraction amount is a multiple of RL_1 = 4, the or of jtoc / rtoc sets
only the S bit, and the and of drop_c / ctoa clears only the S bit. -/
theorem reserved_bits_preserved :
    (∀ f ∈ pl_mutations32, ∀ v : Nat, f v % 4 = v % 4) ∧
    (∀ f ∈ pl_mutations64, ∀ v : Nat, f v % 4 = v % 4) := by
  have hfour : (4 : Nat) = 2 ^ 2 := rfl
  constructor
  · intro f hf v
    simp only [pl_mutations32, List.mem_cons, List.not_mem_nil, or_false] at hf
    rcases hf with rfl|rfl|rfl|rfl|rfl|rfl|rfl|rfl|rfl|rfl|rfl|rfl|rfl|rfl|rfl|rfl|rfl|rfl|rfl|rfl <;>
      simp [w32add, w32sub, M32, PLOCK32_RL_1, PLOCK32_SL_1, PLOCK32_WL_1] <;>
      first
      | omega
      | (rw [hfour, or_mod_two_pow]
         norm_num)
      | (rw [hfour, and_mod_two_pow,
          show (0xFFFEFFFF : Nat) % 2 ^ 2 = 2 ^ 2 - 1 from by decide,
          Nat.and_pow_two_sub_one_of_lt_two_pow (Nat.mod_lt _ (by norm_num))])
  · intro f hf v
    simp only [pl_mutations64, List.mem_cons, List.not_mem_nil, or_false] at hf
    rcases hf with rfl|rfl|rfl|rfl|rfl|rfl|rfl|rfl|rfl|rfl|rfl|rfl|rfl|rfl|rfl|rfl|rfl|rfl|rfl|rfl <;>
      simp [w64add, w64sub, M64, PLOCK64_RL_1, PLOCK64_SL_1, PLOCK64_WL_1] <;>
      first
      | omega
      | (rw [hfour, or_mod_two_pow]
         norm_num)
      | (rw [hfour, and_mod_two_pow,
          show (0xFFFFFFFEFFFFFFFF : Nat) % 2 ^ 2 = 2 ^ 2 - 1 from by decide,
          Nat.and_pow_two_sub_one_of_lt_two_pow (Nat.mod_lt _ (by norm_num))])

/-- Witness for reserved_bits_preserved: the take_r fetch-add on the word 7
keeps its two low bits, for either width. -/
theorem reserved_bits_preserved_witness :
    w32add 7 PLOCK32_RL_1 % 4 = 7 % 4 ∧ w64add 7 PLOCK64_RL_1 % 4 = 7 % 4 :=
  ⟨reserved_bits_preserved.1 (fun v => w32add v PLOCK32_RL_1)
      (by simp [pl_mutations32]) 7,
   reserved_bits_preserved.2 (fun v => w64add v PLOCK64_RL_1)
      (by simp [pl_mutations64]) 7⟩

/-- C4: pl_try_rtos returns true exactly when neither the initial read v0
nor the prev value v1 of its fetch-add shows a W or S bit; on failure the
deltas applied to the word sum to zero (any SL_1 added is subtracted back),
and on success the only net change is S increased by SL_1. -/
theorem try_rtos_spec (v0 v1 : Nat) :
    (pl_try_rtos32 v0 v1).1
      = (decide (v0 &&& (PLOCK32_WL_ANY ||| PLOCK32_SL_ANY) = 0) &&
         decide (v1 &&& (PLOCK32_WL_ANY ||| PLOCK32_SL_ANY) = 0)) ∧
    (pl_try_rtos32 v0 v1).2.sum
      = (if (pl_try_rtos32 v0 v1).1 = true then (PLOCK32_SL_1 : Int) else 0) := by
  unfold pl_try_rtos32
  by_cases h0 : v0 &&& (PLOCK32_WL_ANY ||| PLOCK32_SL_ANY) = 0
  · by_cases h1 : v1 &&& (PLOCK32_WL_ANY ||| PLOCK32_SL_ANY) = 0
    · simp [h0, h1]
    · simp [h0, h1]
  · have hne : v0 ≠ 0 := by
      intro hz
      rw [hz, Nat.zero_and] at h0
      exact h0 rfl
    simp [h0, hne]

theorem pl_take_a_loop32_spec (obs : List Nat) :
    ∀ r w ops, pl_take_a_loop32 r obs = some (w, ops) →
      w &&& PLOCK32_RL_ANY = 0 ∧ ops.sum = 0 := by
  induction obs with
  | nil =>
    intro r w ops h
    unfold pl_take_a_loop32 at h
    by_cases h1 : r &&& PLOCK32_RL_ANY = 0
    · rw [if_pos h1] at h
      simp only [Option.some.injEq, Prod.mk.injEq] at h
      obtain ⟨rfl, rfl⟩ := h
      exact ⟨h1, rfl⟩
    · rw [if_neg h1] at h
      exact absurd h (by simp)
  | cons o rest ih =>
    intro r w ops h
    unfold pl_take_a_loop32 at h
    by_cases h1 : r &&& PLOCK32_RL_ANY = 0
    · rw [if_pos h1] at h
      simp only [Option.some.injEq, Prod.mk.injEq] at h
      obtain ⟨rfl, rfl⟩ := h
      exact ⟨h1, rfl⟩
    · rw [if_neg h1] at h
      by_cases h2 : r &&& PLOCK32_SL_ANY ≠ 0
      · rw [if_pos h2] at h
        cases hrec : pl_take_a_loop32 o rest with
        | none =>
          rw [hrec] at h
          exact absurd h (by simp)
        | some p =>
          obtain ⟨w2, ops2⟩ := p
          rw [hrec] at h
          simp only [Option.some.injEq, Prod.mk.injEq] at h
          obtain ⟨rfl, rfl⟩ := h
          obtain ⟨ha, hb⟩ := ih o w2 ops2 hrec
          refine ⟨ha, ?_⟩
          simp [hb]
      · rw [if_neg h2] at h
        exact ih o w ops h

/-- C2 counterexample: from the lock word SL_1 (an S bit set, reader field
zero) pl_take_a completes immediately, admitting on an observed word whose
S bit is set, without ever subtracting its WL_1 back out. -/
theorem take_a_admits_with_S_bit :
    pl_take_a32 PLOCK32_SL_1 [] = some (PLOCK32_SL_1, [(PLOCK32_WL_1 : Int)]) ∧
    PLOCK32_SL_1 &&& PLOCK32_SL_ANY ≠ 0 := by
  decide

/-- C2 (amended): pl_take_a returns only after observing a lock word whose
reader field is zero at admission; whenever the observed value has an S bit
set while its reader field is non-zero, the operation subtracts its WL_1
back out and waits before retrying, and its net contribution at admission
is exactly WL_1.  It can complete with an S bit set when the reader field
is already zero, so admission guarantees R = 0 rather than S = 0. -/
theorem take_a_admission (v0 : Nat) (obs : List Nat) (w : Nat) (ops : List Int) :
    pl_take_a32 v0 obs = some (w, ops) →
    w &&& PLOCK32_RL_ANY = 0 ∧ ops.sum = (PLOCK32_WL_1 : Int) := by
  intro h
  unfold pl_take_a32 at h
  cases hrec : pl_take_a_loop32 v0 obs with
  | none =>
    rw [hrec] at h
    exact absurd h (by simp)
  | some p =>
    obtain ⟨w2, ops2⟩ := p
    rw [hrec] at h
    simp only [Option.some.injEq, Prod.mk.injEq] at h
    obtain ⟨rfl, rfl⟩ := h
    obtain ⟨ha, hb⟩ := pl_take_a_loop32_spec obs v0 w2 ops2 hrec
    exact ⟨ha, by simp [hb]⟩

/-- Witness for take_a_admission: pl_take_a from the unlocked word admits
at once on the zero word with net contribution WL_1. -/
theorem take_a_admission_witness :
    0 &&& PLOCK32_RL_ANY = 0 ∧
    List.sum [(PLOCK32_WL_1 : Int)] = (PLOCK32_WL_1 : Int) :=
  take_a_admission 0 [] 0 [(PLOCK32_WL_1 : Int)] (by decide)

theorem pl_w_drain32_eq (obs : List Nat) :
    ∀ r w, (r = 0 → w = plock32_wsr) → (∀ o ∈ obs, o < M32) →
      ∀ w2, pl_w_drain32 r w obs = some w2 → w2 = plock32_wsr := by
  induction obs with
  | nil =>
    intro r w hw _ w2 h
    unfold pl_w_drain32 at h
    by_cases hr : r = 0
    · rw [if_pos hr] at h
      simp only [Option.some.injEq] at h
      rw [← h]
      exact hw hr
    · rw [if_neg hr] at h
      exact absurd h (by simp)
  | cons o rest ih =>
    intro r w hw hobs w2 h
    unfold pl_w_drain32 at h
    by_cases hr : r = 0
    · rw [if_pos hr] at h
      simp only [Option.some.injEq] at h
      rw [← h]
      exact hw hr
    · rw [if_neg hr] at h
      apply ih (w32sub o plock32_wsr) o ?_ ?_ w2 h
      · intro hz
        have ho : o < M32 := hobs o (by simp)
        rw [M32] at ho
        simp [w32sub, M32, plock32_wsr, PLOCK32_WL_1, PLOCK32_SL_1,
          PLOCK32_RL_1] at hz
        simp [plock32_wsr, PLOCK32_WL_1, PLOCK32_SL_1, PLOCK32_RL_1]
        omega
      · intro x hx
        exact hobs x (by simp [hx])

/-- C9: when pl_try_w returns non-zero the caller has added exactly
WL_1+SL_1+RL_1 to the word and has already waited until the observed lock
word equals exactly that own contribution (no other reader, seeker or
writer remains); when it returns zero the deltas applied to the word sum to
zero, leaving it net-unchanged. -/
theorem try_w_spec (v0 v1 : Nat) (obs : List Nat)
    (hobs : ∀ o ∈ obs, o < M32) (res : Bool) (ops : List Int) (w : Nat) :
    pl_try_w32 v0 v1 obs = some (res, ops, w) →
    (res = true → ops.sum = (plock32_wsr : Int) ∧ w = plock32_wsr) ∧
    (res = false → ops.sum = 0) := by
  intro h
  unfold pl_try_w32 at h
  by_cases h0 : v0 &&& (PLOCK32_WL_ANY ||| PLOCK32_SL_ANY) ≠ 0
  · rw [if_pos h0] at h
    simp only [Option.some.injEq, Prod.mk.injEq] at h
    obtain ⟨hres, rfl, rfl⟩ := h
    have hv0 : v0 ≠ 0 := by
      intro hz
      rw [hz, Nat.zero_and] at h0
      exact h0 rfl
    constructor
    · intro ht
      rw [← hres] at ht
      simp [hv0] at ht
    · intro _
      rfl
  · rw [if_neg h0] at h
    by_cases h1 : v1 &&& (PLOCK32_WL_ANY ||| PLOCK32_SL_ANY) ≠ 0
    · rw [if_pos h1] at h
      simp only [Option.some.injEq, Prod.mk.injEq] at h
      obtain ⟨hres, rfl, rfl⟩ := h
      constructor
      · intro ht
        rw [← hres] at ht
        simp at ht
        exact absurd ht h1
      · intro _
        simp
    · rw [if_neg h1] at h
      cases hd : pl_w_drain32 v1 (w32add v1 plock32_wsr) obs with
      | none =>
        rw [hd] at h
        exact absurd h (by simp)
      | some w2 =>
        rw [hd] at h
        simp only [Option.some.injEq, Prod.mk.injEq] at h
        obtain ⟨rfl, rfl, rfl⟩ := h
        have hw : w2 = plock32_wsr := by
          apply pl_w_drain32_eq obs v1 (w32add v1 plock32_wsr) ?_ hobs w2 hd
          intro hz
          rw [hz]
          decide
        constructor
        · intro _
          exact ⟨by simp, hw⟩
        · intro hf
          exact absurd hf (by simp)

/-- Witness for try_w_spec: an uncontended pl_try_w from the unlocked word
succeeds with net addition WL_1+SL_1+RL_1 and final word equal to it. -/
theorem try_w_spec_witness :
    List.sum [(plock32_wsr : Int)] = (plock32_wsr : Int) ∧
    (plock32_wsr : Nat) = plock32_wsr :=
  (try_w_spec 0 0 [] (by decide) true [(plock32_wsr : Int)] plock32_wsr
    (by decide)).1 rfl

theorem pl_take_w_loop32_spec (obs : List Nat) :
    ∀ r ops rem, pl_take_w_loop32 obs = some (r, ops, rem) →
      r &&& (PLOCK32_WL_ANY ||| PLOCK32_SL_ANY) = 0 ∧
      ops.sum = (plock32_wsr : Int) ∧ ∀ o ∈ rem, o ∈ obs := by
  induction obs with
  | nil =>
    intro r ops rem h
    exact absurd h (by simp [pl_take_w_loop32])
  | cons v rest ih =>
    intro r ops rem h
    unfold pl_take_w_loop32 at h
    by_cases h1 : v &&& (PLOCK32_WL_ANY ||| PLOCK32_SL_ANY) = 0
    · rw [if_pos h1] at h
      simp only [Option.some.injEq, Prod.mk.injEq] at h
      obtain ⟨rfl, rfl, rfl⟩ := h
      refine ⟨h1, by simp, ?_⟩
      intro o ho
      simp [ho]
    · rw [if_neg h1] at h
      cases hrec : pl_take_w_loop32 rest with
      | none =>
        rw [hrec] at h
        exact absurd h (by simp)
      | some p =>
        obtain ⟨r2, ops2, rem2⟩ := p
        rw [hrec] at h
        simp only [Option.some.injEq, Prod.mk.injEq] at h
        obtain ⟨rfl, rfl, rfl⟩ := h
        obtain ⟨ha, hb, hc⟩ := ih r2 ops2 rem2 hrec
        refine ⟨ha, ?_, ?_⟩
        · simp [hb]
        · intro o ho
          simp [hc o ho]

/-- C1 counterexample: a completed pl_take_w from the unlocked word adds
WL_1|SL_1|RL_1 = WL_1+SL_1+RL_1 and leaves the word equal to that value,
which differs from WL_1|RL_1: the direct-exclusive acquisition does not add
WL_1|RL_1 and the word while it is held alone is not WL_1+RL_1. -/
theorem take_w_takes_S_too :
    pl_take_w32 [0] = some (plock32_wsr, [(plock32_wsr : Int)]) ∧
    plock32_wsr = PLOCK32_WL_1 + PLOCK32_SL_1 + PLOCK32_RL_1 ∧
    plock32_wsr ≠ (PLOCK32_WL_1 ||| PLOCK32_RL_1) := by
  decide

/-- C1 (amended): pl_take_w acquires by atomically adding exactly
WL_1|SL_1|RL_1 (its retries cancel, so this is also the net of all its
deltas), at completion it has observed the lock word equal to
WL_1+SL_1+RL_1 (it is the only holder), and the matching pl_drop_w
subtracts exactly that same amount, restoring any word below 2^32. -/
theorem take_w_drop_w_spec (obs : List Nat) (hobs : ∀ o ∈ obs, o < M32)
    (w : Nat) (ops : List Int) :
    pl_take_w32 obs = some (w, ops) →
    w = plock32_wsr ∧ ops.sum = (plock32_wsr : Int) ∧
    ∀ v : Nat, v < M32 → pl_drop_w32 (w32add v plock32_wsr) = v := by
  intro h
  unfold pl_take_w32 at h
  cases hl : pl_take_w_loop32 obs with
  | none =>
    rw [hl] at h
    exact absurd h (by simp)
  | some p =>
    obtain ⟨r, ops2, rem⟩ := p
    rw [hl] at h
    have h2 : (match pl_w_drain32 r (w32add r plock32_wsr) rem with
        | none => none
        | some w => some (w, ops2)) = some (w, ops) := h
    cases hd : pl_w_drain32 r (w32add r plock32_wsr) rem with
    | none =>
      rw [hd] at h2
      exact absurd h2 (by simp)
    | some w2 =>
      rw [hd] at h2
      simp only [Option.some.injEq, Prod.mk.injEq] at h2
      obtain ⟨rfl, rfl⟩ := h2
      obtain ⟨ha, hb, hc⟩ := pl_take_w_loop32_spec obs r ops2 rem hl
      have hw : w2 = plock32_wsr := by
        apply pl_w_drain32_eq rem r (w32add r plock32_wsr) ?_ ?_ w2 hd
        · intro hz
          rw [hz]
          decide
        · intro o ho
          exact hobs o (hc o ho)
      refine ⟨hw, hb, ?_⟩
      intro v hv
      rw [M32] at hv
      simp [pl_drop_w32, w32add, w32sub, M32, plock32_wsr, PLOCK32_WL_1,
        PLOCK32_SL_1, PLOCK32_RL_1]
      omega

/-- Witness for take_w_drop_w_spec: an uncontended pl_take_w from the
unlocked word, and pl_drop_w undoing the addition on the word 3. -/
theorem take_w_drop_w_spec_witness :
    (plock32_wsr : Nat) = plock32_wsr ∧
    List.sum [(plock32_wsr : Int)] = (plock32_wsr : Int) ∧
    pl_drop_w32 (w32add 3 plock32_wsr) = 3 := by
  have h := take_w_drop_w_spec [0] (by decide) plock32_wsr
    [(plock32_wsr : Int)] (by decide)
  exact ⟨h.1, h.2.1, h.2.2 3 (by decide)⟩
